import Mathlib

/-!
Verification of the provably-fair Plinko outcome engine.

The definitions below are a shallow embedding of the TypeScript engine
(Xorshift32 generator, peg-field builder, path simulator, seed
extraction).  Machine 32-bit unsigned arithmetic is modelled as Nat with
explicit reduction modulo 2^32; the floating values the engine draws and
compares are modelled as exact rationals (every draw is state / 2^32,
which is exactly representable, and all subsequent arithmetic in the
engine stays within exactly representable scales at the points where it
is observed by these claims).
-/

set_option maxRecDepth 10000

/-- Row count of the board (constant ROWS in the source). -/
def ROWS : Nat := 12

/-- Number of drop columns, 0..12 (constant DROP_COLUMNS in the source). -/
def DROP_COLUMNS : Nat := 13

namespace Xorshift32

/-- Constructor: state = seed coerced to unsigned 32 bits, with 0 replaced by 1. -/
def mk (seed : Nat) : Nat :=
  let s := seed % 4294967296
  if s = 0 then 1 else s

/-- One advance of the xorshift32 state:
x = x xor (x shl 13); x = x xor (x shr 17); x = x xor (x shl 5),
all with unsigned 32-bit wraparound. -/
def step (x : Nat) : Nat :=
  let x1 := (x ^^^ (x <<< 13)) % 4294967296
  let x2 := x1 ^^^ (x1 >>> 17)
  (x2 ^^^ (x2 <<< 5)) % 4294967296

/-- nextFloat: advance the state, store it, return new state / 2^32. -/
def nextFloat (st : Nat) : Nat × ℚ :=
  let s := step st
  (s, (s : ℚ) / 4294967296)

end Xorshift32

/-- Rounding used by the builder: Math.round(q * 1000000) / 1000000.
JS Math.round returns the closest integer, ties toward positive
infinity, which over the rationals is the floor of q + 1/2. -/
def round6 (q : ℚ) : ℚ := ((⌊q * 1000000 + 1/2⌋ : ℤ) : ℚ) / 1000000

/-- Build one row of n pegs, threading the generator state; for each peg
draw rnd and store round6 (0.5 + (rnd - 0.5) * 0.2). -/
def buildRow : Nat → Nat → List ℚ × Nat
  | 0, st => ([], st)
  | n + 1, st =>
    let r := Xorshift32.nextFloat st
    let leftBias : ℚ := 0.5 + (r.2 - 0.5) * 0.2
    let roundedBias := round6 leftBias
    let rest := buildRow n r.1
    (roundedBias :: rest.1, rest.2)

/-- Build the rows listed (row r gets r+1 pegs), threading the generator. -/
def buildRows : List Nat → Nat → List (List ℚ) × Nat
  | [], st => ([], st)
  | r :: rs, st =>
    let row := buildRow (r + 1) st
    let rest := buildRows rs row.2
    (row.1 :: rest.1, rest.2)

/-- The peg map: rows 0..ROWS-1 in order, row r with r+1 pegs. -/
def buildPegMap (st : Nat) : List (List ℚ) × Nat :=
  buildRows (List.range ROWS) st

/-- A single decision of the walk. -/
inductive Dir where
  | Left : Dir
  | Right : Dir
deriving DecidableEq, Repr

/-- Clamp of the adjusted bias into [0, 1] (the two ifs of the source). -/
def clampBias (q : ℚ) : ℚ :=
  if q < 0 then 0 else if q > 1 then 1 else q

/-- The row loop of engine.run, from row r with fuel rows left to
process: select peg min pos r, adjust bias by (dropColumn - ROWS/2)/100,
clamp, draw once, go Left (pos unchanged) iff rnd < bias.  Row and peg
lookups are by index and fail (none) when out of bounds, mirroring the
fact that an undefined lookup in the source would throw on member
access. -/
def runAux (pegMap : List (List ℚ)) (dropColumn : ℤ) :
    Nat → Nat → Nat → Nat → Option (List Dir × Nat × Nat)
  | 0, _, pos, st => some ([], pos, st)
  | fuel + 1, r, pos, st => do
    let pegIndex := min pos r
    let row ← pegMap[r]?
    let leftBias ← row[pegIndex]?
    let adj : ℚ := ((dropColumn : ℚ) - ((ROWS / 2 : Nat) : ℚ)) * 0.01
    let biasPrime := clampBias (leftBias + adj)
    let rnd := Xorshift32.nextFloat st
    let rest ← runAux pegMap dropColumn fuel (r + 1)
      (if rnd.2 < biasPrime then pos else pos + 1) rnd.1
    some ((if rnd.2 < biasPrime then Dir.Left else Dir.Right) :: rest.1,
      rest.2.1, rest.2.2)

/-- The engine closure state: the built peg map and the live generator
(kept as a pair so that createGameEngine is literally the builder's
output). -/
abbrev Engine : Type := List (List ℚ) × Nat

/-- The built peg map of the engine. -/
def Engine.pegMap (e : Engine) : List (List ℚ) := e.1

/-- The live generator state of the engine. -/
def Engine.gen (e : Engine) : Nat := e.2

/-- Result of one run (the peg-map hash of the source is a digest of the
serialized field; no claim refers to its value, so it is not carried
here). -/
structure PathResult where
  path : List Dir
  binIndex : Nat
deriving DecidableEq, Repr

/-- createGameEngine from an already-extracted 32-bit seed integer:
seed the generator, build the peg map consuming the stream, and keep the
advanced generator for run. -/
def createGameEngineFromSeed (seedInt : Nat) : Engine :=
  buildPegMap (Xorshift32.mk seedInt)

/-- engine.run: walk ROWS rows from pos = 0 using the engine's live
generator; returns the outcome and the engine with its advanced
generator (the source mutates the closed-over prng in place). -/
def Engine.run (e : Engine) (dropColumn : ℤ) :
    Option (PathResult × Engine) :=
  (runAux e.pegMap dropColumn ROWS 0 0 e.gen).map
    (fun r => (⟨r.1, r.2.1⟩, (e.pegMap, r.2.2)))

/-! ## SHA-256

The engine uses a cryptographic digest (crypto sha256 in the source) for
the commitment helpers and for the malformed-seed fallback.  It is
implemented here over byte lists so that the seeding path of
createGameEngine can be evaluated on concrete inputs. -/

namespace SHA256

/-- Rotate a 32-bit word right by k. -/
def rotr (k x : Nat) : Nat := ((x >>> k) ||| (x <<< (32 - k))) % 4294967296

def smallSigma0 (x : Nat) : Nat := rotr 7 x ^^^ rotr 18 x ^^^ (x >>> 3)

def smallSigma1 (x : Nat) : Nat := rotr 17 x ^^^ rotr 19 x ^^^ (x >>> 10)

def bigSigma0 (x : Nat) : Nat := rotr 2 x ^^^ rotr 13 x ^^^ rotr 22 x

def bigSigma1 (x : Nat) : Nat := rotr 6 x ^^^ rotr 11 x ^^^ rotr 25 x

def ch (x y z : Nat) : Nat := (x &&& y) ^^^ ((x ^^^ 4294967295) &&& z)

def maj (x y z : Nat) : Nat := (x &&& y) ^^^ (x &&& z) ^^^ (y &&& z)

/-- The 64 round constants. -/
def K : List Nat :=
  [1116352408, 1899447441, 3049323471, 3921009573, 961987163,
   1508970993, 2453635748, 2870763221, 3624381080, 310598401,
   607225278, 1426881987, 1925078388, 2162078206, 2614888103,
   3248222580, 3835390401, 4022224774, 264347078, 604807628,
   770255983, 1249150122, 1555081692, 1996064986, 2554220882,
   2821834349, 2952996808, 3210313671, 3336571891, 3584528711,
   113926993, 338241895, 666307205, 773529912, 1294757372,
   1396182291, 1695183700, 1986661051, 2177026350, 2456956037,
   2730485921, 2820302411, 3259730800, 3345764771, 3516065817,
   3600352804, 4094571909, 275423344, 430227734, 506948616,
   659060556, 883997877, 958139571, 1322822218, 1537002063,
   1747873779, 1955562222, 2024104815, 2227730452, 2361852424,
   2428436474, 2756734187, 3204031479, 3329325298]

/-- Big-endian byte expansion of a value into n bytes. -/
def beBytes : Nat → Nat → List Nat
  | 0, _ => []
  | n + 1, v => beBytes n (v / 256) ++ [v % 256]

/-- SHA-256 padding: append 0x80, zeros, and the 8-byte bit length. -/
def padBytes (msg : List Nat) : List Nat :=
  let len := msg.length
  let padZeros := (64 - (len + 9) % 64) % 64
  msg ++ [0x80] ++ List.replicate padZeros 0 ++ beBytes 8 (len * 8)

/-- Group bytes into big-endian 32-bit words. -/
def toWords : List Nat → List Nat
  | b0 :: b1 :: b2 :: b3 :: rest =>
    (b0 * 16777216 + b1 * 65536 + b2 * 256 + b3) :: toWords rest
  | _ => []

/-- Split a padded message into 64-byte blocks (fuel = block count). -/
def blocksAux : Nat → List Nat → List (List Nat)
  | 0, _ => []
  | n + 1, l => l.take 64 :: blocksAux n (l.drop 64)

def blocks (l : List Nat) : List (List Nat) := blocksAux (l.length / 64) l

/-- Message-schedule extension step; the word list is kept newest-first. -/
def extendWords : Nat → List Nat → List Nat
  | 0, ws => ws
  | n + 1, ws =>
    let w := (smallSigma1 (ws.getD 1 0) + ws.getD 6 0 +
      smallSigma0 (ws.getD 14 0) + ws.getD 15 0) % 4294967296
    extendWords n (w :: ws)

/-- The 64-entry message schedule of a block of 16 words. -/
def schedule (ws : List Nat) : List Nat := (extendWords 48 ws.reverse).reverse

/-- The eight working variables of the compression function. -/
structure Words8 where
  a : Nat
  b : Nat
  c : Nat
  d : Nat
  e : Nat
  f : Nat
  g : Nat
  hh : Nat
deriving DecidableEq

/-- One round of the compression function. -/
def compressRound (w : Words8) (kw : Nat × Nat) : Words8 :=
  let t1 := (w.hh + bigSigma1 w.e + ch w.e w.f w.g + kw.1 + kw.2) % 4294967296
  let t2 := (bigSigma0 w.a + maj w.a w.b w.c) % 4294967296
  ⟨(t1 + t2) % 4294967296, w.a, w.b, w.c, (w.d + t1) % 4294967296,
    w.e, w.f, w.g⟩

/-- Compress one 64-byte block into the running hash. -/
def compressBlock (h : Words8) (block : List Nat) : Words8 :=
  let z := (K.zip (schedule (toWords block))).foldl compressRound h
  ⟨(h.a + z.a) % 4294967296, (h.b + z.b) % 4294967296,
   (h.c + z.c) % 4294967296, (h.d + z.d) % 4294967296,
   (h.e + z.e) % 4294967296, (h.f + z.f) % 4294967296,
   (h.g + z.g) % 4294967296, (h.hh + z.hh) % 4294967296⟩

/-- Initial hash value. -/
def H0 : Words8 :=
  ⟨1779033703, 3144134277, 1013904242, 2773480762,
   1359893119, 2600822924, 528734635, 1541459225⟩

/-- Digest of a byte message as 32 bytes. -/
def digestBytes (msg : List Nat) : List Nat :=
  let h := (blocks (padBytes msg)).foldl compressBlock H0
  beBytes 4 h.a ++ beBytes 4 h.b ++ beBytes 4 h.c ++ beBytes 4 h.d ++
  beBytes 4 h.e ++ beBytes 4 h.f ++ beBytes 4 h.g ++ beBytes 4 h.hh

end SHA256

/-- Lowercase hex digit of a value below 16. -/
def hexDigit (n : Nat) : Char :=
  if n < 10 then Char.ofNat (48 + n) else Char.ofNat (87 + n)

/-- Lowercase hex encoding of a byte list. -/
def bytesToHex (bs : List Nat) : String :=
  ⟨bs.foldr (fun b acc => hexDigit (b / 16) :: hexDigit (b % 16) :: acc) []⟩

/-- Bytes of a string (the digest is applied to UTF-8 bytes; every input
these claims touch is ASCII, where code points and UTF-8 bytes agree). -/
def strBytes (s : String) : List Nat := s.data.map Char.toNat

/-- sha256 helper of the source: hex digest string of a string. -/
def sha256 (s : String) : String :=
  bytesToHex (SHA256.digestBytes (strBytes s))

/-- generateCommit: sha256 of serverSeed ++ ":" ++ nonce. -/
def generateCommit (serverSeed nonce : String) : String :=
  sha256 (serverSeed ++ ":" ++ nonce)

/-- generateCombinedSeed: sha256 of the three components joined by ":". -/
def generateCombinedSeed (serverSeed clientSeed nonce : String) : String :=
  sha256 (serverSeed ++ ":" ++ clientSeed ++ ":" ++ nonce)

/-- Value of one hex digit character, none when invalid. -/
def hexVal (c : Char) : Option Nat :=
  if 48 ≤ c.toNat ∧ c.toNat ≤ 57 then some (c.toNat - 48)
  else if 97 ≤ c.toNat ∧ c.toNat ≤ 102 then some (c.toNat - 87)
  else if 65 ≤ c.toNat ∧ c.toNat ≤ 70 then some (c.toNat - 55)
  else none

/-- Hex decoding with the semantics of Buffer.from(s, hex) in Node:
decode two characters per byte and stop silently at the first pair that
is incomplete or contains an invalid character (no exception is thrown,
so the catch branch of the source never fires for plain strings). -/
def hexPairs : List Char → List Nat
  | c1 :: c2 :: rest =>
    match hexVal c1, hexVal c2 with
    | some hi, some lo => (16 * hi + lo) :: hexPairs rest
    | _, _ => []
  | _ => []

def hexToBytes (s : String) : List Nat := hexPairs s.data

/-- buffer.readUInt32BE(0): first four bytes, big-endian. -/
def readUInt32BE (bs : List Nat) : Nat :=
  bs.getD 0 0 * 16777216 + bs.getD 1 0 * 65536 + bs.getD 2 0 * 256 +
    bs.getD 3 0

/-- The byte buffer createGameEngine seeds from: the hex decoding of the
input, re-hashed through sha256 when fewer than 4 bytes come out. -/
def seedBytes (combinedSeedHex : String) : List Nat :=
  let buffer := hexToBytes combinedSeedHex
  if buffer.length < 4 then hexToBytes (sha256 combinedSeedHex) else buffer

/-- The 32-bit seed integer createGameEngine extracts. -/
def seedInt (combinedSeedHex : String) : Nat :=
  readUInt32BE (seedBytes combinedSeedHex)

/-- createGameEngine: extract the seed integer, seed the generator,
build the peg map, keep the advanced generator for run. -/
def createGameEngine (combinedSeedHex : String) : Engine :=
  createGameEngineFromSeed (seedInt combinedSeedHex)

/-- Concrete inputs used by examples, witnesses and counterexamples. -/
def testStr : String := "test"

/-- A 2-character non-hex input (decodes to no bytes). -/
def shortNonHex : String := "zz"

/-- A non-hex input whose valid hex prefix still decodes to 4 bytes. -/
def truncNonHex : String := "e1dddf77zz"

/-- The combined seed of the concrete test vector. -/
def vectorSeedHex : String :=
  "e1dddf77de27d395ea2be2ed49aa2a59bd6bf12ee8d350c16c008abd406c07e0"


/-! ## Specification-side definitions

These follow the wording of the specification and of the claims; the
claims compare them against the definitions above, which were translated
from the source. -/

/-- The triangular shape the specification requires of a peg field:
ROWS rows, row r with r + 1 pegs. -/
def Shaped (pegMap : List (List ℚ)) : Prop :=
  pegMap.length = ROWS ∧ ∀ r < ROWS, (pegMap.getD r []).length = r + 1

instance : DecidablePred Shaped := fun _pegMap =>
  inferInstanceAs (Decidable (_ ∧ _))

/-- Generator state after n draws from initial state s0. -/
def drawState (s0 : Nat) (n : Nat) : Nat := Xorshift32.step^[n] s0

/-- The n-th draw (1-indexed) of the stream started at state s0. -/
def draw (s0 : Nat) (n : Nat) : ℚ := (drawState s0 n : ℚ) / 4294967296

/-- The walk as the specification words it: per row r take the peg at
index min pos r, shift its bias by (dropColumn - floor(12/2)) * 0.01,
clamp into [0, 1], draw once, go Left (pos unchanged) iff rnd is below
the adjusted bias; rows processed in increasing order. -/
def specWalk (pegMap : List (List ℚ)) (dropColumn : ℤ) :
    Nat → Nat → Nat → Nat → List Dir × Nat × Nat
  | 0, _, pos, st => ([], pos, st)
  | fuel + 1, r, pos, st =>
    let bias := (pegMap.getD r []).getD (min pos r) 0
    let biasPrime := max 0 (min 1 (bias + ((dropColumn : ℚ) - 6) * 0.01))
    let st' := Xorshift32.step st
    if ((st' : ℚ) / 4294967296) < biasPrime then
      let rest := specWalk pegMap dropColumn fuel (r + 1) pos st'
      (Dir.Left :: rest.1, rest.2)
    else
      let rest := specWalk pegMap dropColumn fuel (r + 1) (pos + 1) st'
      (Dir.Right :: rest.1, rest.2)

/-- The walk with explicit stream indexing as the specification words
the draw-order contract: the decision at row r consumes the (79 + r)-th
draw of the stream started at the seed state s0. -/
def specWalkIdx (pegMap : List (List ℚ)) (dropColumn : ℤ) (s0 : Nat) :
    Nat → Nat → Nat → List Dir × Nat
  | 0, _, pos => ([], pos)
  | fuel + 1, r, pos =>
    let bias := (pegMap.getD r []).getD (min pos r) 0
    let biasPrime := max 0 (min 1 (bias + ((dropColumn : ℚ) - 6) * 0.01))
    if draw s0 (79 + r) < biasPrime then
      let rest := specWalkIdx pegMap dropColumn s0 fuel (r + 1) pos
      (Dir.Left :: rest.1, rest.2)
    else
      let rest := specWalkIdx pegMap dropColumn s0 fuel (r + 1) (pos + 1)
      (Dir.Right :: rest.1, rest.2)

/-- Number of pegs in i consecutive rows starting at row a (row r has
r + 1 pegs). -/
def pegOffset : Nat → Nat → Nat
  | _, 0 => 0
  | a, i + 1 => (a + 1) + pegOffset (a + 1) i

/-- Round half away from zero at 6 fractional digits, as the
specification names the rounding rule. -/
def roundHalfAway6 (q : ℚ) : ℚ :=
  if q < 0 then -(((⌊-q * 1000000 + 1/2⌋ : ℤ) : ℚ) / 1000000)
  else ((⌊q * 1000000 + 1/2⌋ : ℤ) : ℚ) / 1000000

/-- Strict hex validity as the error-handling claim words it: every
character a hex digit and a whole number of byte pairs. -/
def validHexStr (s : String) : Bool :=
  s.data.all (fun c => (hexVal c).isSome) && s.data.length % 2 == 0

/-- Modelled from the spec: the seed extraction as the error-handling
claim words it — an input that is not valid hex, or whose decoding
yields fewer than 4 bytes, is re-hashed through the digest before the
first 4 bytes are read big-endian (the source instead decodes with
truncating semantics and re-hashes only when fewer than 4 bytes come
out). -/
def seedIntPerClaim (s : String) : Nat :=
  if validHexStr s ∧ 4 ≤ (hexToBytes s).length
  then readUInt32BE (hexToBytes s)
  else readUInt32BE (hexToBytes (sha256 s))

/-- Two consecutive runs on the same engine instance (the source engine
closure advances its generator in place). -/
def runTwice (s : String) (d : ℤ) : Option (PathResult × PathResult) := do
  let p1 ← (createGameEngine s).run d
  let p2 ← p1.2.run d
  some (p1.1, p2.1)

/-! ## Helper decompositions for the bit-level analysis -/

/-- First stage of the advance: x xor (x shl 13), truncated. -/
def xs1 (x : Nat) : Nat := (x ^^^ (x <<< 13)) % 4294967296

/-- Second stage: x xor (x shr 17). -/
def xs2 (x : Nat) : Nat := x ^^^ (x >>> 17)

/-- Third stage: x xor (x shl 5), truncated. -/
def xs3 (x : Nat) : Nat := (x ^^^ (x <<< 5)) % 4294967296

/-- The advance xored with the identity (g x = step x xor x); its kernel
is the set of fixed points of the advance. -/
def stepXorId (x : Nat) : Nat := Xorshift32.step x ^^^ x

/-- Columns of the GF(2) inverse of the matrix of stepXorId: the i-th
entry is the image of the i-th basis vector under the inverse map. -/
def HCOLS : List Nat :=
  [2456421193, 645318041, 1313818681, 1280725041, 1214537761, 1073741825,
   2147483650, 3502817351, 1901674701, 3803349402, 3351756863, 2408546430,
   522125564, 4009148859, 260538430, 3485974591, 2676981886, 1058996476,
   2935407035, 2408022078, 521076860, 4007051451, 264733246, 3477587007,
   2660206718, 1025446140, 2868306363, 2273820734, 252674172, 3470246075,
   2645524854, 3912565156]

/-- The linear map inverse to stepXorId on 32-bit values, given by its
action on the bits of the argument. -/
def hInv (x : Nat) : Nat :=
  (List.range 32).foldr
    (fun i acc => HCOLS.getD i 0 * (x.testBit i).toNat ^^^ acc) 0

/-- The advance as a function on the 32-bit state space. -/
def stepFin (x : Fin 4294967296) : Fin 4294967296 :=
  ⟨Xorshift32.step x.1, Nat.mod_lt _ (by norm_num)⟩

/-! ## Basic stream lemmas -/

lemma nextFloat_fst (st : Nat) :
    (Xorshift32.nextFloat st).1 = Xorshift32.step st := rfl

lemma nextFloat_val (st : Nat) :
    (Xorshift32.nextFloat st).2 = ((Xorshift32.step st : ℚ) / 4294967296) := rfl

lemma drawState_zero (st : Nat) : drawState st 0 = st := rfl

lemma drawState_shift (st n : Nat) :
    drawState (Xorshift32.step st) n = drawState st (n + 1) := by
  unfold drawState
  exact (Function.iterate_succ_apply _ _ _).symm

lemma drawState_comp (st m n : Nat) :
    drawState (drawState st m) n = drawState st (n + m) := by
  unfold drawState
  exact (Function.iterate_add_apply _ n m st).symm

lemma draw_shift (st n : Nat) :
    draw (Xorshift32.nextFloat st).1 n = draw st (n + 1) := by
  unfold draw
  rw [nextFloat_fst, drawState_shift]

lemma draw_one (st : Nat) :
    draw st 1 = ((Xorshift32.step st : ℚ) / 4294967296) := rfl

/-! ## Structural lemmas about the builder -/

lemma buildRow_length (n st : Nat) : (buildRow n st).1.length = n := by
  induction n generalizing st with
  | zero => rfl
  | succ n ih => simp only [buildRow, List.length_cons, ih]

lemma buildRow_state (n st : Nat) :
    (buildRow n st).2 = drawState st n := by
  induction n generalizing st with
  | zero => rfl
  | succ n ih =>
    simp only [buildRow]
    rw [ih, nextFloat_fst, drawState_shift]

lemma buildRow_getD (n st c : Nat) (h : c < n) :
    (buildRow n st).1.getD c 0 =
      round6 (0.5 + (draw st (c + 1) - 0.5) * 0.2) := by
  induction n generalizing st c with
  | zero => omega
  | succ n ih =>
    cases c with
    | zero =>
      simp only [buildRow, List.getD_cons_zero]
      rw [nextFloat_val, ← draw_one]
    | succ c =>
      have hc : c < n := by omega
      simp only [buildRow, List.getD_cons_succ]
      rw [ih _ _ hc, draw_shift]

lemma buildRows_length (rs : List Nat) (st : Nat) :
    (buildRows rs st).1.length = rs.length := by
  induction rs generalizing st with
  | nil => rfl
  | cons r rs ih => simp only [buildRows, List.length_cons, ih]

lemma buildRows_state (k : Nat) : ∀ (a st : Nat),
    (buildRows (List.range' a k) st).2 = drawState st (pegOffset a k) := by
  induction k with
  | zero => intro a st; rfl
  | succ k ih =>
    intro a st
    rw [List.range'_succ]
    simp only [buildRows]
    rw [buildRow_state, ih (a + 1), drawState_comp]
    congr 1
    rw [show pegOffset a (k + 1) = (a + 1) + pegOffset (a + 1) k from rfl]
    omega

lemma buildRows_getD (k : Nat) : ∀ (a st i : Nat), i < k →
    (buildRows (List.range' a k) st).1.getD i [] =
      (buildRow (a + i + 1) (drawState st (pegOffset a i))).1 := by
  induction k with
  | zero => omega
  | succ k ih =>
    intro a st i hi
    rw [List.range'_succ]
    cases i with
    | zero =>
      simp only [buildRows, List.getD_cons_zero]
      rfl
    | succ i =>
      have hik : i < k := by omega
      simp only [buildRows, List.getD_cons_succ]
      rw [buildRow_state, ih (a + 1) _ i hik, drawState_comp]
      have h1 : pegOffset (a + 1) i + (a + 1) = pegOffset a (i + 1) := by
        rw [show pegOffset a (i + 1) = (a + 1) + pegOffset (a + 1) i from rfl]
        omega
      have h2 : a + 1 + i + 1 = a + (i + 1) + 1 := by omega
      rw [h1, h2]

lemma buildPegMap_length (st : Nat) : (buildPegMap st).1.length = ROWS := by
  unfold buildPegMap
  rw [buildRows_length, List.length_range]

lemma buildPegMap_row (st r : Nat) (h : r < ROWS) :
    (buildPegMap st).1.getD r [] =
      (buildRow (r + 1) (drawState st (pegOffset 0 r))).1 := by
  unfold buildPegMap
  rw [List.range_eq_range', buildRows_getD ROWS 0 st r h, Nat.zero_add]

lemma buildPegMap_shape (st : Nat) : Shaped (buildPegMap st).1 := by
  refine ⟨buildPegMap_length st, fun r hr => ?_⟩
  rw [buildPegMap_row st r hr, buildRow_length]

lemma buildPegMap_state (st : Nat) :
    (buildPegMap st).2 = drawState st 78 := by
  unfold buildPegMap
  rw [List.range_eq_range', buildRows_state,
    show pegOffset 0 ROWS = 78 by decide]

lemma createGameEngine_eq (s : String) :
    createGameEngine s = buildPegMap (Xorshift32.mk (seedInt s)) := rfl

lemma createGameEngine_pegMap (s : String) :
    (createGameEngine s).pegMap =
      (buildPegMap (Xorshift32.mk (seedInt s))).1 :=
  congrArg Prod.fst (createGameEngine_eq s)

lemma createGameEngine_gen0 (s : String) :
    (createGameEngine s).gen =
      (buildPegMap (Xorshift32.mk (seedInt s))).2 :=
  congrArg Prod.snd (createGameEngine_eq s)

lemma createGameEngine_shape (s : String) :
    Shaped (createGameEngine s).pegMap := by
  rw [createGameEngine_pegMap]
  exact buildPegMap_shape _

lemma createGameEngine_gen (s : String) :
    (createGameEngine s).gen =
      drawState (Xorshift32.mk (seedInt s)) 78 := by
  rw [createGameEngine_gen0]
  exact buildPegMap_state _

/-! ## Structural lemmas about the walk -/

lemma getElem?_eq_some_getD {α : Type} (l : List α) (i : Nat) (dflt : α)
    (h : i < l.length) : l[i]? = some (l.getD i dflt) := by
  rw [List.getElem?_eq_getElem h]
  congr 1
  simp [List.getD_eq_getElem?_getD, List.getElem?_eq_getElem h]

lemma clampBias_eq (q : ℚ) : clampBias q = max 0 (min 1 q) := by
  unfold clampBias
  split_ifs with h1 h2
  · rw [min_eq_right (by linarith), max_eq_left (by linarith)]
  · rw [min_eq_left (by linarith), max_eq_right (by linarith)]
  · rw [min_eq_right (by linarith), max_eq_right (by linarith)]

lemma runAux_eq_specWalk (pegMap : List (List ℚ)) (d : ℤ)
    (hs : Shaped pegMap) : ∀ (fuel r pos st : Nat), r + fuel ≤ ROWS →
    runAux pegMap d fuel r pos st =
      some (specWalk pegMap d fuel r pos st) := by
  intro fuel
  induction fuel with
  | zero => intro r pos st _; rfl
  | succ fuel ih =>
    intro r pos st hle
    have hrR : r < ROWS := by omega
    have hr : r < pegMap.length := by rw [hs.1]; exact hrR
    have hrow : (pegMap.getD r []).length = r + 1 := hs.2 r hrR
    have hpi : min pos r < (pegMap.getD r []).length := by
      rw [hrow]; exact Nat.lt_succ_of_le (min_le_right pos r)
    have h1 : pegMap[r]? = some (pegMap.getD r []) :=
      getElem?_eq_some_getD pegMap r [] hr
    have h2 : (pegMap.getD r [])[min pos r]? =
        some ((pegMap.getD r []).getD (min pos r) 0) :=
      getElem?_eq_some_getD (pegMap.getD r []) (min pos r) 0 hpi
    have hadj : (((ROWS / 2 : Nat) : ℚ)) = 6 := by norm_num [ROWS]
    simp only [runAux, Option.bind_eq_bind, h1, Option.some_bind, h2,
      specWalk, clampBias_eq, hadj, nextFloat_val, nextFloat_fst]
    split_ifs with hcond
    · rw [ih (r + 1) pos (Xorshift32.step st) (by omega)]
      simp only [Option.some_bind, Option.map_some']
    · rw [ih (r + 1) (pos + 1) (Xorshift32.step st) (by omega)]
      simp only [Option.some_bind, Option.map_some']

lemma drawState_succ (s0 m : Nat) :
    Xorshift32.step (drawState s0 m) = drawState s0 (m + 1) := by
  unfold drawState
  exact (Function.iterate_succ_apply' _ _ _).symm

lemma specWalk_state (pegMap : List (List ℚ)) (d : ℤ) :
    ∀ (fuel r pos st : Nat),
    (specWalk pegMap d fuel r pos st).2.2 = drawState st fuel := by
  intro fuel
  induction fuel with
  | zero => intro r pos st; rfl
  | succ fuel ih =>
    intro r pos st
    simp only [specWalk]
    split_ifs
    · dsimp only
      rw [ih, drawState_shift]
    · dsimp only
      rw [ih, drawState_shift]

lemma specWalk_length (pegMap : List (List ℚ)) (d : ℤ) :
    ∀ (fuel r pos st : Nat),
    (specWalk pegMap d fuel r pos st).1.length = fuel := by
  intro fuel
  induction fuel with
  | zero => intro r pos st; rfl
  | succ fuel ih =>
    intro r pos st
    simp only [specWalk]
    split_ifs
    · dsimp only
      rw [List.length_cons, ih]
    · dsimp only
      rw [List.length_cons, ih]

lemma count_cons_left (l : List Dir) :
    (Dir.Left :: l).count Dir.Right = l.count Dir.Right := by
  simp [List.count_cons]

lemma count_cons_right (l : List Dir) :
    (Dir.Right :: l).count Dir.Right = l.count Dir.Right + 1 := by
  simp [List.count_cons]

lemma specWalk_pos (pegMap : List (List ℚ)) (d : ℤ) :
    ∀ (fuel r pos st : Nat),
    (specWalk pegMap d fuel r pos st).2.1 =
      pos + (specWalk pegMap d fuel r pos st).1.count Dir.Right := by
  intro fuel
  induction fuel with
  | zero => intro r pos st; rfl
  | succ fuel ih =>
    intro r pos st
    simp only [specWalk]
    split_ifs
    · dsimp only
      rw [count_cons_left, ih]
    · dsimp only
      rw [count_cons_right, ih]
      omega

lemma count_take_mono (l : List Dir) (i : Nat) :
    (l.take i).count Dir.Right ≤ (l.take (i + 1)).count Dir.Right ∧
      (l.take (i + 1)).count Dir.Right ≤ (l.take i).count Dir.Right + 1 := by
  rw [List.take_succ, List.count_append]
  rcases h : l[i]? with _ | x
  · simp
  · cases x
    · simp [Option.toList, List.count_cons]
    · simp [Option.toList, List.count_cons]

lemma specWalk_eq_idx (pegMap : List (List ℚ)) (d : ℤ) (s0 : Nat) :
    ∀ (fuel r pos : Nat),
    ((specWalk pegMap d fuel r pos (drawState s0 (78 + r))).1,
      (specWalk pegMap d fuel r pos (drawState s0 (78 + r))).2.1) =
      specWalkIdx pegMap d s0 fuel r pos := by
  intro fuel
  induction fuel with
  | zero => intro r pos; rfl
  | succ fuel ih =>
    intro r pos
    have hstep : Xorshift32.step (drawState s0 (78 + r)) =
        drawState s0 (78 + (r + 1)) := by
      rw [drawState_succ, show 78 + r + 1 = 78 + (r + 1) from by omega]
    have hdraw : ((Xorshift32.step (drawState s0 (78 + r)) : ℚ) / 4294967296)
        = draw s0 (79 + r) := by
      rw [hstep]
      unfold draw
      rw [show 78 + (r + 1) = 79 + r from by omega]
    simp only [specWalk, specWalkIdx, hdraw]
    split_ifs
    · dsimp only
      rw [hstep]
      have h1 := congrArg Prod.fst (ih (r + 1) pos)
      have h2 := congrArg Prod.snd (ih (r + 1) pos)
      dsimp only at h1 h2
      rw [h1, h2]
    · dsimp only
      rw [hstep]
      have h1 := congrArg Prod.fst (ih (r + 1) (pos + 1))
      have h2 := congrArg Prod.snd (ih (r + 1) (pos + 1))
      dsimp only at h1 h2
      rw [h1, h2]

lemma engineRun_eq (e : Engine) (d : ℤ) (hs : Shaped e.pegMap) :
    e.run d = some
      (⟨(specWalk e.pegMap d ROWS 0 0 e.gen).1,
        (specWalk e.pegMap d ROWS 0 0 e.gen).2.1⟩,
       (e.pegMap, (specWalk e.pegMap d ROWS 0 0 e.gen).2.2)) := by
  unfold Engine.run
  rw [runAux_eq_specWalk e.pegMap d hs ROWS 0 0 e.gen (by omega),
    Option.map_some']

/-! ## Bit-level analysis of the generator advance -/

lemma step_eq_stages (x : Nat) : Xorshift32.step x = xs3 (xs2 (xs1 x)) := rfl

lemma lowest_bit_exists {x : Nat} (h : x ≠ 0) :
    ∃ i, x.testBit i = true ∧ ∀ j < i, x.testBit j = false := by
  induction x using Nat.strong_induction_on with
  | _ x ih =>
    rcases Nat.mod_two_eq_zero_or_one x with he | ho
    · have hx2 : x / 2 ≠ 0 := by
        intro h0
        apply h
        omega
      have hlt : x / 2 < x := Nat.div_lt_self (Nat.pos_of_ne_zero h) one_lt_two
      obtain ⟨i, hi, hlow⟩ := ih (x / 2) hlt hx2
      refine ⟨i + 1, ?_, ?_⟩
      · rw [Nat.testBit_succ]; exact hi
      · intro j hj
        cases j with
        | zero =>
          rw [Nat.testBit_zero]
          simp only [decide_eq_false_iff_not]
          omega
        | succ j =>
          rw [Nat.testBit_succ]
          exact hlow j (by omega)
    · exact ⟨0, by rw [Nat.testBit_zero]; simp only [decide_eq_true_eq]; omega,
        fun j hj => by omega⟩

lemma lt_two_pow_of_high_bits_false :
    ∀ (i x : Nat), (∀ j, i ≤ j → x.testBit j = false) → x < 2 ^ i := by
  intro i
  induction i with
  | zero =>
    intro x h
    have hx : x = 0 := Nat.eq_of_testBit_eq fun j => by
      rw [h j (Nat.zero_le j), Nat.zero_testBit]
    omega
  | succ i ih =>
    intro x h
    have h2 : x / 2 < 2 ^ i := by
      apply ih
      intro j hj
      rw [Nat.testBit_div_two]
      exact h (j + 1) (by omega)
    have hp : 2 ^ (i + 1) = 2 ^ i * 2 := by rw [Nat.pow_succ]
    omega

lemma testBit_lt_32 {x i : Nat} (hx : x < 4294967296)
    (hbit : x.testBit i = true) : i < 32 := by
  have hge := Nat.testBit_implies_ge hbit
  by_contra hcon
  have h32 : (32 : Nat) ≤ i := by omega
  have : (4294967296 : Nat) ≤ 2 ^ i := by
    calc (4294967296 : Nat) = 2 ^ 32 := by norm_num
    _ ≤ 2 ^ i := Nat.pow_le_pow_right (by omega) h32
  omega

lemma xs1_ne_zero {x : Nat} (hx : x < 4294967296) (h : x ≠ 0) :
    xs1 x ≠ 0 := by
  obtain ⟨i, hi, hlow⟩ := lowest_bit_exists h
  have hi32 : i < 32 := testBit_lt_32 hx hi
  intro hz
  have hb : (xs1 x).testBit i = true := by
    unfold xs1
    rw [show (4294967296 : Nat) = 2 ^ 32 from by norm_num,
      Nat.testBit_mod_two_pow, Nat.testBit_xor, Nat.testBit_shiftLeft]
    rcases Nat.lt_or_ge i 13 with h13 | h13
    · simp [hi, hi32, show ¬ (13 ≤ i) from by omega]
    · have : x.testBit (i - 13) = false := hlow (i - 13) (by omega)
      simp [hi, hi32, h13, this]
  rw [hz, Nat.zero_testBit] at hb
  exact Bool.false_ne_true hb

lemma xs3_ne_zero {x : Nat} (hx : x < 4294967296) (h : x ≠ 0) :
    xs3 x ≠ 0 := by
  obtain ⟨i, hi, hlow⟩ := lowest_bit_exists h
  have hi32 : i < 32 := testBit_lt_32 hx hi
  intro hz
  have hb : (xs3 x).testBit i = true := by
    unfold xs3
    rw [show (4294967296 : Nat) = 2 ^ 32 from by norm_num,
      Nat.testBit_mod_two_pow, Nat.testBit_xor, Nat.testBit_shiftLeft]
    rcases Nat.lt_or_ge i 5 with h5 | h5
    · simp [hi, hi32, show ¬ (5 ≤ i) from by omega]
    · have : x.testBit (i - 5) = false := hlow (i - 5) (by omega)
      simp [hi, hi32, h5, this]
  rw [hz, Nat.zero_testBit] at hb
  exact Bool.false_ne_true hb

lemma xs2_ne_zero {x : Nat} (h : x ≠ 0) : xs2 x ≠ 0 := by
  obtain ⟨i, hi, hhigh⟩ := Nat.exists_most_significant_bit h
  intro hz
  have hb : (xs2 x).testBit i = true := by
    unfold xs2
    rw [Nat.testBit_xor, Nat.testBit_shiftRight]
    have : x.testBit (17 + i) = false := hhigh (17 + i) (by omega)
    simp [hi, this]
  rw [hz, Nat.zero_testBit] at hb
  exact Bool.false_ne_true hb

lemma xs1_lt (x : Nat) : xs1 x < 4294967296 := Nat.mod_lt _ (by norm_num)

lemma xs3_lt (x : Nat) : xs3 x < 4294967296 := Nat.mod_lt _ (by norm_num)

lemma xs2_lt {x : Nat} (hx : x < 4294967296) : xs2 x < 4294967296 := by
  unfold xs2
  rw [show (4294967296 : Nat) = 2 ^ 32 from by norm_num] at hx ⊢
  apply Nat.xor_lt_two_pow hx
  calc x >>> 17 = x / 2 ^ 17 := Nat.shiftRight_eq_div_pow x 17
  _ ≤ x := Nat.div_le_self x _
  _ < 2 ^ 32 := hx

lemma step_lt (x : Nat) : Xorshift32.step x < 4294967296 := by
  rw [step_eq_stages]; exact xs3_lt _

lemma step_ne_zero {x : Nat} (hx : x < 4294967296) (h : x ≠ 0) :
    Xorshift32.step x ≠ 0 := by
  rw [step_eq_stages]
  exact xs3_ne_zero (xs2_lt (xs1_lt x)) (xs2_ne_zero (xs1_ne_zero hx h))

lemma xs1_linear (a b : Nat) : xs1 (a ^^^ b) = xs1 a ^^^ xs1 b := by
  apply Nat.eq_of_testBit_eq
  intro i
  unfold xs1
  rw [show (4294967296 : Nat) = 2 ^ 32 from by norm_num]
  simp only [Nat.testBit_mod_two_pow, Nat.testBit_xor, Nat.testBit_shiftLeft]
  by_cases h32 : i < 32 <;> by_cases h13 : 13 ≤ i <;>
    simp only [h32, h13, decide_True, decide_False, Bool.true_and,
      Bool.false_and, Bool.and_true, Bool.and_false] <;>
    cases a.testBit i <;> cases b.testBit i <;>
    cases a.testBit (i - 13) <;> cases b.testBit (i - 13) <;> rfl

lemma xs2_linear (a b : Nat) : xs2 (a ^^^ b) = xs2 a ^^^ xs2 b := by
  apply Nat.eq_of_testBit_eq
  intro i
  unfold xs2
  simp only [Nat.testBit_xor, Nat.testBit_shiftRight]
  cases a.testBit i <;> cases b.testBit i <;>
    cases a.testBit (17 + i) <;> cases b.testBit (17 + i) <;> rfl

lemma xs3_linear (a b : Nat) : xs3 (a ^^^ b) = xs3 a ^^^ xs3 b := by
  apply Nat.eq_of_testBit_eq
  intro i
  unfold xs3
  rw [show (4294967296 : Nat) = 2 ^ 32 from by norm_num]
  simp only [Nat.testBit_mod_two_pow, Nat.testBit_xor, Nat.testBit_shiftLeft]
  by_cases h32 : i < 32 <;> by_cases h5 : 5 ≤ i <;>
    simp only [h32, h5, decide_True, decide_False, Bool.true_and,
      Bool.false_and, Bool.and_true, Bool.and_false] <;>
    cases a.testBit i <;> cases b.testBit i <;>
    cases a.testBit (i - 5) <;> cases b.testBit (i - 5) <;> rfl

lemma step_linear (a b : Nat) :
    Xorshift32.step (a ^^^ b) = Xorshift32.step a ^^^ Xorshift32.step b := by
  rw [step_eq_stages, step_eq_stages, step_eq_stages, xs1_linear,
    xs2_linear, xs3_linear]

lemma xor_rotate (x y z : Nat) : x ^^^ (y ^^^ z) = y ^^^ (x ^^^ z) := by
  rw [← Nat.xor_assoc, Nat.xor_comm x y, Nat.xor_assoc]

lemma xor_cancel_pair (c x y : Nat) :
    (c ^^^ x) ^^^ (c ^^^ y) = x ^^^ y := by
  rw [Nat.xor_assoc, xor_rotate x c y, ← Nat.xor_assoc, Nat.xor_self,
    Nat.zero_xor]

lemma foldr_bits_linear (cs : List Nat) (a b : Nat) : ∀ (l : List Nat),
    l.foldr (fun i acc =>
      cs.getD i 0 * ((a ^^^ b).testBit i).toNat ^^^ acc) 0 =
    l.foldr (fun i acc =>
      cs.getD i 0 * (a.testBit i).toNat ^^^ acc) 0 ^^^
    l.foldr (fun i acc =>
      cs.getD i 0 * (b.testBit i).toNat ^^^ acc) 0 := by
  intro l
  induction l with
  | nil => simp
  | cons i l ih =>
    simp only [List.foldr_cons]
    rw [ih]
    cases ha : a.testBit i <;> cases hb : b.testBit i <;>
      simp only [ha, hb, Nat.testBit_xor, Bool.xor_false, Bool.xor_true,
        Bool.false_xor, Bool.true_xor, Bool.not_false, Bool.not_true,
        Bool.toNat_false, Bool.toNat_true, Nat.mul_zero, Nat.mul_one,
        Nat.zero_xor]
    · rw [xor_rotate]
    · rw [← Nat.xor_assoc]
    · rw [xor_cancel_pair]

lemma hInv_linear (a b : Nat) : hInv (a ^^^ b) = hInv a ^^^ hInv b :=
  foldr_bits_linear HCOLS a b (List.range 32)

lemma stepXorId_linear (a b : Nat) :
    stepXorId (a ^^^ b) = stepXorId a ^^^ stepXorId b := by
  unfold stepXorId
  rw [step_linear]
  apply Nat.eq_of_testBit_eq
  intro i
  simp only [Nat.testBit_xor]
  cases (Xorshift32.step a).testBit i <;> cases (Xorshift32.step b).testBit i <;>
    cases a.testBit i <;> cases b.testBit i <;> rfl

lemma additive_agree (f g : Nat → Nat)
    (hf : ∀ a b, f (a ^^^ b) = f a ^^^ f b)
    (hg : ∀ a b, g (a ^^^ b) = g a ^^^ g b)
    (hpow : ∀ i < 32, f (2 ^ i) = g (2 ^ i)) :
    ∀ x, x < 2 ^ 32 → f x = g x := by
  intro x
  induction x using Nat.strong_induction_on with
  | _ x ih =>
    intro hx
    rcases Nat.eq_zero_or_pos x with rfl | hpos
    · have hf0 : f 0 = 0 := by
        have := hf 0 0
        rw [Nat.xor_zero, Nat.xor_self] at this
        exact this
      have hg0 : g 0 = 0 := by
        have := hg 0 0
        rw [Nat.xor_zero, Nat.xor_self] at this
        exact this
      rw [hf0, hg0]
    · obtain ⟨i, hi, hhigh⟩ :=
        Nat.exists_most_significant_bit (Nat.pos_iff_ne_zero.mp hpos)
      have hi32 : i < 32 := by
        have hge := Nat.testBit_implies_ge hi
        by_contra hcon
        have : (2 : Nat) ^ 32 ≤ 2 ^ i := Nat.pow_le_pow_right (by omega) (by omega)
        omega
      set y := x ^^^ 2 ^ i with hy
      have hylt : y < 2 ^ i := by
        apply lt_two_pow_of_high_bits_false
        intro j hj
        rw [hy, Nat.testBit_xor]
        rcases Nat.lt_or_ge i j with hij | hij
        · rw [hhigh j hij, Nat.testBit_two_pow_of_ne (by omega)]
          rfl
        · have : i = j := by omega
          subst this
          rw [hi, Nat.testBit_two_pow_self]
          rfl
      have hyx : y < x := by
        have : 2 ^ i ≤ x := Nat.testBit_implies_ge hi
        omega
      have hxy : y ^^^ 2 ^ i = x := by
        rw [hy, Nat.xor_cancel_right]
      have hrec : f y = g y := ih y hyx (by
        have : (2 : Nat) ^ i ≤ 2 ^ 32 := Nat.pow_le_pow_right (by omega) (by omega)
        omega)
      calc f x = f (y ^^^ 2 ^ i) := by rw [hxy]
      _ = f y ^^^ f (2 ^ i) := hf y (2 ^ i)
      _ = g y ^^^ g (2 ^ i) := by rw [hrec, hpow i hi32]
      _ = g (y ^^^ 2 ^ i) := (hg y (2 ^ i)).symm
      _ = g x := by rw [hxy]

lemma stepXorId_basis : ∀ i < 32, hInv (stepXorId (2 ^ i)) = 2 ^ i := by
  decide

lemma hInv_stepXorId_id : ∀ x, x < 2 ^ 32 → hInv (stepXorId x) = x := by
  have h := additive_agree (fun x => hInv (stepXorId x)) (fun x => x)
    (fun a b => by
      show hInv (stepXorId (a ^^^ b)) = hInv (stepXorId a) ^^^ hInv (stepXorId b)
      rw [stepXorId_linear, hInv_linear])
    (fun a b => rfl)
    stepXorId_basis
  exact h

lemma fixedPoint_only_zero {x : Nat} (hx : x < 4294967296)
    (hfix : Xorshift32.step x = x) : x = 0 := by
  have h0 : stepXorId x = 0 := by
    unfold stepXorId
    rw [hfix, Nat.xor_self]
  have hid := hInv_stepXorId_id x (by norm_num at hx ⊢; omega)
  rw [h0, show hInv 0 = 0 from by decide] at hid
  omega

lemma stepFin_injective : Function.Injective stepFin := by
  intro a b hab
  have h : Xorshift32.step a.1 = Xorshift32.step b.1 :=
    congrArg Fin.val hab
  have hxor : Xorshift32.step (a.1 ^^^ b.1) = 0 := by
    rw [step_linear, h, Nat.xor_self]
  have hlt : a.1 ^^^ b.1 < 4294967296 := by
    have := Nat.xor_lt_two_pow (n := 32)
      (by norm_num [a.2] : a.1 < 2 ^ 32)
      (by norm_num [b.2] : b.1 < 2 ^ 32)
    norm_num at this ⊢
    omega
  rcases Nat.eq_zero_or_pos (a.1 ^^^ b.1) with hz | hp
  · exact Fin.ext (Nat.xor_eq_zero.mp hz)
  · exact absurd hxor (step_ne_zero hlt (by omega))

lemma stepFin_bijective : Function.Bijective stepFin :=
  Finite.injective_iff_bijective.mp stepFin_injective

lemma mk_lt (seed : Nat) : Xorshift32.mk seed < 4294967296 := by
  show (if seed % 4294967296 = 0 then 1 else seed % 4294967296) < 4294967296
  split_ifs
  · norm_num
  · exact Nat.mod_lt _ (by norm_num)

lemma mk_ne_zero (seed : Nat) : Xorshift32.mk seed ≠ 0 := by
  show (if seed % 4294967296 = 0 then 1 else seed % 4294967296) ≠ 0
  split_ifs with h
  · norm_num
  · exact h

lemma drawState_invariant (s0 : Nat) (h0 : s0 ≠ 0) (hlt : s0 < 4294967296) :
    ∀ n, drawState s0 n ≠ 0 ∧ drawState s0 n < 4294967296 := by
  intro n
  induction n with
  | zero => rw [drawState_zero]; exact ⟨h0, hlt⟩
  | succ n ih =>
    rw [← drawState_succ]
    exact ⟨step_ne_zero ih.2 ih.1, step_lt _⟩

lemma drawState_lt (s0 n : Nat) (hn : 0 < n) :
    drawState s0 n < 4294967296 := by
  cases n with
  | zero => omega
  | succ m => rw [← drawState_succ]; exact step_lt _

lemma draw_nonneg (s0 n : Nat) : 0 ≤ draw s0 n := by
  unfold draw
  positivity

lemma draw_lt_one (s0 n : Nat) (hn : 0 < n) : draw s0 n < 1 := by
  unfold draw
  rw [div_lt_one (by norm_num)]
  exact_mod_cast drawState_lt s0 n hn

/-! ## Rounding and bias range lemmas -/

lemma roundHalfAway6_of_nonneg {q : ℚ} (h : 0 ≤ q) :
    roundHalfAway6 q = round6 q := by
  unfold roundHalfAway6
  rw [if_neg (not_lt.mpr h)]
  rfl

lemma round6_mem {q : ℚ} (h1 : 0.4 ≤ q) (h2 : q < 0.6) :
    0.4 ≤ round6 q ∧ round6 q ≤ 0.6 := by
  unfold round6
  have hlow : (400000 : ℤ) ≤ ⌊q * 1000000 + 1/2⌋ := by
    apply Int.le_floor.mpr
    push_cast
    linarith
  have hhigh : ⌊q * 1000000 + 1/2⌋ < 600001 := by
    apply Int.floor_lt.mpr
    push_cast
    linarith
  have hcl : (400000 : ℚ) ≤ ((⌊q * 1000000 + 1/2⌋ : ℤ) : ℚ) := by
    exact_mod_cast hlow
  have hch : ((⌊q * 1000000 + 1/2⌋ : ℤ) : ℚ) ≤ 600000 := by
    have : ⌊q * 1000000 + 1/2⌋ ≤ 600000 := by omega
    exact_mod_cast this
  constructor <;> [linarith; linarith]

lemma raw_bias_mem {dr : ℚ} (h0 : 0 ≤ dr) (h1 : dr < 1) :
    0.4 ≤ 0.5 + (dr - 0.5) * 0.2 ∧ 0.5 + (dr - 0.5) * 0.2 < 0.6 := by
  constructor <;> linarith

lemma draw_comp (st m n : Nat) : draw (drawState st m) n = draw st (n + m) := by
  unfold draw
  rw [drawState_comp]

lemma pegOffset_tri : ∀ r < ROWS, pegOffset 0 r = r * (r + 1) / 2 := by decide

lemma pegMap_value (st r c : Nat) (hr : r < ROWS) (hc : c ≤ r) :
    ((buildPegMap st).1.getD r []).getD c 0 =
      round6 (0.5 + (draw st (pegOffset 0 r + c + 1) - 0.5) * 0.2) := by
  rw [buildPegMap_row st r hr, buildRow_getD (r + 1) _ c (by omega),
    draw_comp, show c + 1 + pegOffset 0 r = pegOffset 0 r + c + 1 from by omega]

/-! ## Hex validity -/

lemma hexPairs_length_of_valid : ∀ (cs : List Char),
    (∀ c ∈ cs, (hexVal c).isSome) → cs.length % 2 = 0 →
    (hexPairs cs).length = cs.length / 2 := by
  intro cs
  induction cs using hexPairs.induct with
  | case1 c1 c2 rest hi lo h2 h1 ih =>
    intro hall heven
    simp only [hexPairs, h1, h2]
    rw [List.length_cons, ih (fun c hc => hall c (by simp [hc]))
      (by simp only [List.length_cons] at heven ⊢; omega)]
    simp only [List.length_cons]
    omega
  | case2 c1 c2 rest hno =>
    intro hall heven
    exfalso
    have hs1 : (hexVal c1).isSome := hall c1 (by simp)
    have hs2 : (hexVal c2).isSome := hall c2 (by simp)
    rcases ho1 : hexVal c1 with _ | v1
    · rw [ho1] at hs1; simp at hs1
    rcases ho2 : hexVal c2 with _ | v2
    · rw [ho2] at hs2; simp at hs2
    exact hno v1 v2 ho1 ho2
  | case3 t hne =>
    intro hall heven
    cases t with
    | nil => rfl
    | cons c t2 =>
      cases t2 with
      | nil => simp at heven
      | cons c2 t3 => exact (hne c c2 t3 rfl).elim

section ConcreteChecks

attribute [local semireducible] Rat.add Rat.mul Rat.inv Rat.sub Rat.ofScientific

example : sha256 testStr =
    "9f86d081884c7d659a2feaa0c55ad015a3bf4f1b2b0b822cd15d6c15b0f00a08" := by
  decide

example : seedInt vectorSeedHex = 0xe1dddf77 := by decide

example : seedInt shortNonHex = 1247854461 := by decide

example :
    (buildPegMap (Xorshift32.mk 0xe1dddf77)).1.take 3 =
      [[422123/1000000], [552503/1000000, 408786/1000000],
       [491574/1000000, 468780/1000000, 436540/1000000]] := by decide

example :
    ((createGameEngineFromSeed 0xe1dddf77).run 6).map
      (fun r => r.1.binIndex) = some 6 := by decide

end ConcreteChecks

/-! ## The claims -/

/-- C1: for every built peg field, every dropColumn in [0, 12] and every
generator state, engine.run processes rows 0..11 in increasing order and
at each row selects the peg at index min pos r, shifts its bias by
(dropColumn - floor(12/2)) * 0.01, clamps to [0, 1], draws exactly one
value, appends Left leaving pos unchanged when the draw is below the
adjusted bias and otherwise appends Right incrementing pos; no other
draws or state changes occur (the final generator state is exactly 12
advances past the initial one). -/
theorem claim_C1 (pegMap : List (List ℚ)) (d : ℤ) (st : Nat)
    (hs : Shaped pegMap) (_h0 : 0 ≤ d) (_h1 : d ≤ 12) :
    Engine.run (pegMap, st) d =
      some (⟨(specWalk pegMap d ROWS 0 0 st).1,
             (specWalk pegMap d ROWS 0 0 st).2.1⟩,
            (pegMap, (specWalk pegMap d ROWS 0 0 st).2.2)) ∧
    (specWalk pegMap d ROWS 0 0 st).2.2 = drawState st ROWS := by
  constructor
  · exact engineRun_eq (pegMap, st) d hs
  · exact specWalk_state pegMap d ROWS 0 0 st

/-- C2: for every combined seed and dropColumn in [0, 12], engine.run
returns a DecisionPath of exactly 12 entries, binIndex equal to the
count of Right entries, binIndex at most 12, and the running count of
Right moves starts at 0, never decreases along prefixes, and grows by at
most 1 per row. -/
theorem claim_C2 (s : String) (d : ℤ) (_h0 : 0 ≤ d) (_h1 : d ≤ 12) :
    ∃ (o : PathResult) (e1 : Engine),
      (createGameEngine s).run d = some (o, e1) ∧
      o.path.length = ROWS ∧
      o.binIndex = o.path.count Dir.Right ∧
      o.binIndex ≤ 12 ∧
      (o.path.take 0).count Dir.Right = 0 ∧
      (∀ i : Nat,
        (o.path.take i).count Dir.Right ≤
          (o.path.take (i + 1)).count Dir.Right ∧
        (o.path.take (i + 1)).count Dir.Right ≤
          (o.path.take i).count Dir.Right + 1) := by
  refine ⟨_, _, engineRun_eq (createGameEngine s) d (createGameEngine_shape s),
    ?_, ?_, ?_, rfl, fun i => count_take_mono _ i⟩
  · exact specWalk_length _ _ _ _ _ _
  · show (specWalk _ d ROWS 0 0 _).2.1 = _
    rw [specWalk_pos, Nat.zero_add]
  · show (specWalk _ d ROWS 0 0 _).2.1 ≤ 12
    rw [specWalk_pos, Nat.zero_add]
    have h12 : (specWalk (createGameEngine s).pegMap d ROWS 0 0
        (createGameEngine s).gen).1.length = 12 := by
      rw [specWalk_length]
      rfl
    exact le_trans (List.count_le_length _ _) (le_of_eq h12)

/-- C3: the generator holds one unsigned 32-bit state; construction
reduces the seed mod 2^32 and replaces 0 by 1; every draw advances the
state by x xor (x shl 13), then xor with (shr 17), then xor with
(shl 5), all with 32-bit wraparound, stores the new state, and returns
new state / 2^32, which lies in [0, 1). -/
theorem claim_C3 :
    (∀ seed : Nat, Xorshift32.mk seed =
        (if seed % 4294967296 = 0 then 1 else seed % 4294967296) ∧
      Xorshift32.mk seed < 4294967296) ∧
    (∀ st : Nat,
      (Xorshift32.nextFloat st).1 =
        (((((st ^^^ (st <<< 13)) % 4294967296) ^^^
           (((st ^^^ (st <<< 13)) % 4294967296) >>> 17)) ^^^
          ((((st ^^^ (st <<< 13)) % 4294967296) ^^^
           (((st ^^^ (st <<< 13)) % 4294967296) >>> 17)) <<< 5)) % 4294967296) ∧
      (Xorshift32.nextFloat st).2 =
        ((Xorshift32.nextFloat st).1 : ℚ) / 4294967296 ∧
      0 ≤ (Xorshift32.nextFloat st).2 ∧ (Xorshift32.nextFloat st).2 < 1 ∧
      (Xorshift32.nextFloat st).1 < 4294967296) := by
  constructor
  · intro seed
    exact ⟨rfl, mk_lt seed⟩
  · intro st
    refine ⟨?_, rfl, ?_, ?_, ?_⟩
    · exact rfl
    · rw [nextFloat_val]
      positivity
    · rw [nextFloat_val, div_lt_one (by norm_num)]
      exact_mod_cast step_lt st
    · exact step_lt st

/-- C4: for every combined seed the peg field has 12 rows with row r
holding r + 1 pegs; each stored bias comes from one draw d in [0, 1) as
the rounding, half away from zero at 6 decimal digits, of
0.5 + (d - 0.5) * 0.2, a raw value in [0.4, 0.6]; every stored bias lies
in [0, 1]. -/
theorem claim_C4 (s : String) :
    (createGameEngine s).pegMap.length = ROWS ∧
    (∀ r, r < ROWS → ((createGameEngine s).pegMap.getD r []).length = r + 1) ∧
    (∀ r, r < ROWS → ∀ c, c ≤ r → ∃ dr : ℚ, 0 ≤ dr ∧ dr < 1 ∧
      0.4 ≤ 0.5 + (dr - 0.5) * 0.2 ∧ 0.5 + (dr - 0.5) * 0.2 ≤ 0.6 ∧
      ((createGameEngine s).pegMap.getD r []).getD c 0 =
        roundHalfAway6 (0.5 + (dr - 0.5) * 0.2) ∧
      0 ≤ ((createGameEngine s).pegMap.getD r []).getD c 0 ∧
      ((createGameEngine s).pegMap.getD r []).getD c 0 ≤ 1) := by
  refine ⟨?_, ?_, ?_⟩
  · rw [createGameEngine_pegMap]
    exact buildPegMap_length _
  · intro r hr
    rw [createGameEngine_pegMap, buildPegMap_row _ r hr]
    exact buildRow_length _ _
  · intro r hr c hc
    rw [createGameEngine_pegMap]
    have hval := pegMap_value (Xorshift32.mk (seedInt s)) r c hr hc
    set dr := draw (Xorshift32.mk (seedInt s)) (pegOffset 0 r + c + 1) with hdr
    have hd0 : 0 ≤ dr := draw_nonneg _ _
    have hd1 : dr < 1 := draw_lt_one _ _ (by omega)
    obtain ⟨hraw0, hraw1⟩ := raw_bias_mem hd0 hd1
    obtain ⟨hb0, hb1⟩ := round6_mem hraw0 hraw1
    refine ⟨dr, hd0, hd1, hraw0, le_of_lt hraw1, ?_, ?_, ?_⟩
    · rw [hval, roundHalfAway6_of_nonneg (by linarith)]
    · rw [hval]; linarith
    · rw [hval]; linarith

/-- C5: field construction and path simulation consume one continued
generator stream: the engine generator after construction is exactly 78
advances past the seed state; peg (r, c) is built from draw number
r(r+1)/2 + c + 1; and for every dropColumn the walk of engine.run equals
the indexed walk whose decision at row r consumes draw number 79 + r of
the same stream. -/
theorem claim_C5 (s : String) :
    ((createGameEngine s).gen = drawState (Xorshift32.mk (seedInt s)) 78) ∧
    (∀ r, r < ROWS → ∀ c, c ≤ r →
      ((createGameEngine s).pegMap.getD r []).getD c 0 =
        round6 (0.5 + (draw (Xorshift32.mk (seedInt s))
          (r * (r + 1) / 2 + c + 1) - 0.5) * 0.2)) ∧
    (∀ d : ℤ, ((createGameEngine s).run d).map
        (fun p => (p.1.path, p.1.binIndex)) =
      some (specWalkIdx (createGameEngine s).pegMap d
        (Xorshift32.mk (seedInt s)) ROWS 0 0)) := by
  refine ⟨createGameEngine_gen s, ?_, ?_⟩
  · intro r hr c hc
    rw [createGameEngine_pegMap, pegMap_value _ r c hr hc,
      pegOffset_tri r hr]
  · intro d
    rw [engineRun_eq (createGameEngine s) d (createGameEngine_shape s),
      Option.map_some']
    have hidx := specWalk_eq_idx (createGameEngine s).pegMap d
      (Xorshift32.mk (seedInt s)) ROWS 0 0
    rw [Nat.add_zero] at hidx
    rw [← hidx, createGameEngine_gen s]

/-- C7 (amended): for every dropColumn outside [0, 12] the core does not
clamp the column, but engine.run does not raise an error either: no
lookup is indexed by dropColumn (the peg index is min pos r) and the
adjusted bias is clamped into [0, 1], so the run completes with a
well-formed Outcome of 12 decisions and binIndex in [0, 12]. -/
theorem claim_C7 (s : String) (d : ℤ) (_hd : d < 0 ∨ 12 < d) :
    ∃ (o : PathResult) (e1 : Engine),
      (createGameEngine s).run d = some (o, e1) ∧
      o.path.length = ROWS ∧ o.binIndex ≤ 12 := by
  refine ⟨_, _, engineRun_eq (createGameEngine s) d (createGameEngine_shape s),
    ?_, ?_⟩
  · exact specWalk_length _ _ _ _ _ _
  · show (specWalk _ d ROWS 0 0 _).2.1 ≤ 12
    rw [specWalk_pos, Nat.zero_add]
    have h12 : (specWalk (createGameEngine s).pegMap d ROWS 0 0
        (createGameEngine s).gen).1.length = 12 := by
      rw [specWalk_length]
      rfl
    exact le_trans (List.count_le_length _ _) (le_of_eq h12)

/-- C8 (amended): createGameEngine re-hashes the input through sha256
before reading the first 4 bytes big-endian exactly when the truncating
hex decoding of the input yields fewer than 4 bytes; an input that is
valid hex with at least 8 characters decodes in full and is never
re-hashed.  The recovery never surfaces an error and, the computation
being pure, repeated calls on the same input are identical. -/
theorem claim_C8 (s : String) :
    ((hexToBytes s).length < 4 →
      seedBytes s = hexToBytes (sha256 s) ∧
      seedInt s = readUInt32BE (hexToBytes (sha256 s))) ∧
    (validHexStr s = true → 8 ≤ s.length →
      seedBytes s = hexToBytes s ∧
      (hexToBytes s).length = s.length / 2) := by
  constructor
  · intro hlt
    constructor
    · unfold seedBytes
      rw [if_pos hlt]
    · unfold seedInt seedBytes
      rw [if_pos hlt]
  · intro hvalid hlen
    have hall : ∀ c ∈ s.data, (hexVal c).isSome := by
      have := (Bool.and_eq_true _ _).mp hvalid
      intro c hc
      exact List.all_eq_true.mp this.1 c hc
    have heven : s.data.length % 2 = 0 := by
      have := (Bool.and_eq_true _ _).mp hvalid
      have h2 := this.2
      simpa using h2
    have hlength : (hexToBytes s).length = s.length / 2 := by
      unfold hexToBytes
      rw [hexPairs_length_of_valid s.data hall heven]
      rfl
    refine ⟨?_, hlength⟩
    unfold seedBytes
    rw [if_neg]
    rw [hlength]
    have : s.length = s.data.length := rfl
    omega

/-- C9: the generator state can never become zero: the constructor maps
seed 0 to 1, the advance maps every nonzero 32-bit state to a nonzero
32-bit state, the advance is a bijection on the 32-bit state space with
0 as its only fixed point, the state stays nonzero after any number of
draws from any seed, and hence every draw lies strictly in (0, 1). -/
theorem claim_C9 :
    Xorshift32.mk 0 = 1 ∧
    (∀ x : Nat, x < 4294967296 → x ≠ 0 →
      Xorshift32.step x ≠ 0 ∧ Xorshift32.step x < 4294967296) ∧
    Function.Bijective stepFin ∧
    (∀ x : Nat, x < 4294967296 → (Xorshift32.step x = x ↔ x = 0)) ∧
    (∀ seed n : Nat, drawState (Xorshift32.mk seed) n ≠ 0) ∧
    (∀ seed n : Nat, 0 < draw (Xorshift32.mk seed) (n + 1) ∧
      draw (Xorshift32.mk seed) (n + 1) < 1) := by
  refine ⟨rfl, ?_, stepFin_bijective, ?_, ?_, ?_⟩
  · intro x hlt hne
    exact ⟨step_ne_zero hlt hne, step_lt x⟩
  · intro x hlt
    constructor
    · intro hfix
      exact fixedPoint_only_zero hlt hfix
    · intro hz
      subst hz
      rfl
  · intro seed n
    exact (drawState_invariant _ (mk_ne_zero seed) (mk_lt seed) n).1
  · intro seed n
    constructor
    · unfold draw
      apply div_pos _ (by norm_num)
      have h := (drawState_invariant _ (mk_ne_zero seed) (mk_lt seed) (n + 1)).1
      exact_mod_cast Nat.pos_of_ne_zero h
    · exact draw_lt_one _ _ (by omega)

section ConcreteClaims

attribute [local semireducible] Rat.add Rat.mul Rat.inv Rat.sub Rat.ofScientific

/-- C6: on the concrete vector, the seed read big-endian from the first
4 bytes of the combined seed hex is 0xe1dddf77; the first five draws
printed at 10 decimals are 0.1106166649, 0.7625129214, 0.0439292176,
0.4578678815, 0.3438999297; the first three peg rows are [0.422123],
[0.552503, 0.408786], [0.491574, 0.468780, 0.436540]; and run with
dropColumn 6 lands in bin 6. -/
theorem claim_C6 :
    seedInt vectorSeedHex = 0xe1dddf77 ∧
    (List.range 5).map (fun i =>
        ⌊draw (Xorshift32.mk (seedInt vectorSeedHex)) (i + 1) *
          10000000000 + 1/2⌋) =
      [1106166649, 7625129214, 439292176, 4578678815, 3438999297] ∧
    (createGameEngine vectorSeedHex).pegMap.take 3 =
      [[422123/1000000], [552503/1000000, 408786/1000000],
       [491574/1000000, 468780/1000000, 436540/1000000]] ∧
    ((createGameEngine vectorSeedHex).run 6).map
      (fun p => p.1.binIndex) = some 6 := by
  refine ⟨by decide, by decide, by decide, by decide⟩

/-- C7 counterexample: with the vector seed and dropColumn 13 (outside
[0, 12]) engine.run does not raise an error: it completes with a
well-formed Outcome of 12 decisions landing in bin 5. -/
theorem claim_C7_counterexample :
    ((createGameEngine vectorSeedHex).run 13).map
      (fun p => (p.1.path.length, p.1.binIndex)) = some (12, 5) := by
  decide

/-- C8 counterexample: the input e1dddf77zz is not valid hex, yet
createGameEngine does not re-hash it: the truncating hex decoding keeps
the 4-byte prefix and the seed is 0xe1dddf77, not the value the claimed
re-hash of the input would give. -/
theorem claim_C8_counterexample :
    validHexStr truncNonHex = false ∧
    seedInt truncNonHex = 0xe1dddf77 ∧
    seedIntPerClaim truncNonHex =
      readUInt32BE (hexToBytes (sha256 truncNonHex)) ∧
    seedInt truncNonHex ≠ seedIntPerClaim truncNonHex := by
  refine ⟨by decide, by decide, by decide, by decide⟩

/-- C10: engine.run is not idempotent on a shared engine instance:
with the vector seed and dropColumn 6, two consecutive calls on the same
engine return different DecisionPaths and different binIndexes. -/
theorem claim_C10 :
    ∃ (s : String) (d : ℤ), 0 ≤ d ∧ d ≤ 12 ∧
      ∃ pr : PathResult × PathResult, runTwice s d = some pr ∧
        pr.1.path ≠ pr.2.path ∧ pr.1.binIndex ≠ pr.2.binIndex := by
  refine ⟨vectorSeedHex, 6, by norm_num, by norm_num,
    ⟨⟨[Dir.Left, Dir.Left, Dir.Left, Dir.Right, Dir.Left, Dir.Right,
       Dir.Left, Dir.Right, Dir.Left, Dir.Right, Dir.Right, Dir.Right], 6⟩,
     ⟨[Dir.Right, Dir.Right, Dir.Left, Dir.Left, Dir.Left, Dir.Left,
       Dir.Left, Dir.Left, Dir.Left, Dir.Left, Dir.Left, Dir.Right], 3⟩⟩,
    by decide, by decide, by decide⟩

/-- Witness for C1 at the vector field, dropColumn 6 and the engine's
own generator state. -/
theorem claim_C1_witness :
    Shaped (createGameEngine vectorSeedHex).pegMap ∧
    (Engine.run ((createGameEngine vectorSeedHex).pegMap,
        (createGameEngine vectorSeedHex).gen) 6 =
      some (⟨(specWalk (createGameEngine vectorSeedHex).pegMap 6 ROWS 0 0
              (createGameEngine vectorSeedHex).gen).1,
             (specWalk (createGameEngine vectorSeedHex).pegMap 6 ROWS 0 0
              (createGameEngine vectorSeedHex).gen).2.1⟩,
            ((createGameEngine vectorSeedHex).pegMap,
             (specWalk (createGameEngine vectorSeedHex).pegMap 6 ROWS 0 0
              (createGameEngine vectorSeedHex).gen).2.2)) ∧
      (specWalk (createGameEngine vectorSeedHex).pegMap 6 ROWS 0 0
        (createGameEngine vectorSeedHex).gen).2.2 =
        drawState (createGameEngine vectorSeedHex).gen ROWS) :=
  ⟨by decide, claim_C1 (createGameEngine vectorSeedHex).pegMap 6
    (createGameEngine vectorSeedHex).gen (by decide) (by norm_num)
    (by norm_num)⟩

/-- Witness for C2 at the vector seed and dropColumn 6. -/
theorem claim_C2_witness :
    ∃ (o : PathResult) (e1 : Engine),
      (createGameEngine vectorSeedHex).run 6 = some (o, e1) ∧
      o.path.length = ROWS ∧
      o.binIndex = o.path.count Dir.Right ∧
      o.binIndex ≤ 12 ∧
      (o.path.take 0).count Dir.Right = 0 ∧
      (∀ i : Nat,
        (o.path.take i).count Dir.Right ≤
          (o.path.take (i + 1)).count Dir.Right ∧
        (o.path.take (i + 1)).count Dir.Right ≤
          (o.path.take i).count Dir.Right + 1) :=
  claim_C2 vectorSeedHex 6 (by norm_num) (by norm_num)

/-- Witness for C4: row 2 of the vector field has 3 pegs. -/
theorem claim_C4_witness :
    ((createGameEngine vectorSeedHex).pegMap.getD 2 []).length = 2 + 1 :=
  (claim_C4 vectorSeedHex).2.1 2 (by decide)

/-- Witness for C5: peg (2, 1) of the vector field is built from draw
number 2·3/2 + 1 + 1 = 5 of the stream. -/
theorem claim_C5_witness :
    ((createGameEngine vectorSeedHex).pegMap.getD 2 []).getD 1 0 =
      round6 (0.5 + (draw (Xorshift32.mk (seedInt vectorSeedHex))
        (2 * (2 + 1) / 2 + 1 + 1) - 0.5) * 0.2) :=
  (claim_C5 vectorSeedHex).2.1 2 (by decide) 1 (by decide)

/-- Witness for C7 at the vector seed and dropColumn 13. -/
theorem claim_C7_witness :
    ∃ (o : PathResult) (e1 : Engine),
      (createGameEngine vectorSeedHex).run 13 = some (o, e1) ∧
      o.path.length = ROWS ∧ o.binIndex ≤ 12 :=
  claim_C7 vectorSeedHex 13 (Or.inr (by norm_num))

/-- Witness for C8: the non-hex input zz decodes to no bytes and is
re-hashed, while the 64-character vector seed is taken as-is. -/
theorem claim_C8_witness :
    (seedBytes shortNonHex = hexToBytes (sha256 shortNonHex) ∧
      seedInt shortNonHex = readUInt32BE (hexToBytes (sha256 shortNonHex))) ∧
    (seedBytes vectorSeedHex = hexToBytes vectorSeedHex ∧
      (hexToBytes vectorSeedHex).length = vectorSeedHex.length / 2) :=
  ⟨(claim_C8 shortNonHex).1 (by decide),
   (claim_C8 vectorSeedHex).2 (by decide) (by decide)⟩

/-- Witness for C9: state 7 is nonzero and below 2^32, and so is its
advance. -/
theorem claim_C9_witness :
    Xorshift32.step 7 ≠ 0 ∧ Xorshift32.step 7 < 4294967296 :=
  claim_C9.2.1 7 (by norm_num) (by norm_num)

end ConcreteClaims
